import Mathlib

/-!
Shallow embedding of the pnk-merkle-drop-v2 repository.

Embedded pieces:
* the MerkleRedeem contract (contracts/src/MerkleRedeemV2.sol): state,
  disburse, claimMonth, claimMonths, claimStatus, merkleRoots, verifyClaim
  and seedAllocations, together with a trace of the primitive effects each
  call performs (needed for the ordering property of marking before the
  external transfer);
* the subgraph event fetcher (snapshots/src/helpers/subgraph-events.js):
  fetchStakeSets, fetchAllStakeSets, parseStakeSetsIntoEvents, getStakeSets,
  with the subgraph server modelled as a list of rows ordered by id and the
  network modelled as an availability flag;
* the pool-sizing arithmetic of the snapshot CLI (snapshots/cli.js):
  stakePercent and fullReward over arbitrary-precision integers, with
  BigNumber.div modelled as truncation toward zero (Int.tdiv).

keccak256 is kept abstract: the contract operations are parameterized by a
pair-hashing function `hash2` and a leaf-hashing function `leafHash`.
-/

namespace PnkDrop

/-- Ethereum addresses, modelled as natural numbers. -/
abbrev Address := Nat

/-- bytes32 words, modelled as natural numbers; 0 plays bytes32(0). -/
abbrev Bytes32 := Nat

/-- State of the MerkleRedeem contract plus the slice of ERC20 token state it
touches.  `contractBal` is the token balance held by the contract itself (the
escrow), `balances` are the balances of external accounts.  The allowance
that `seedAllocations`'s transferFrom relies on is abstracted into its
sufficient-funds condition. -/
structure MState where
  owner : Address
  monthMerkleRoots : Nat → Bytes32
  claimed : Nat → Address → Bool
  contractBal : Nat
  balances : Address → Nat

/-- Which require/revert fired.  The source contract uses bare `require`
calls (some with reason strings); constructors here name the failing check. -/
inductive CErr where
  | alreadyClaimed
  | invalidProof
  | transferFailed
  | notOwner
  | rootAlreadySet
  deriving DecidableEq

/-- Solidity events emitted by a successful call. -/
inductive Ev where
  | claimedEv (claimant : Address) (balance : Nat)
  deriving DecidableEq

/-- Primitive effects of a contract call, in execution order: writing a
claimed flag, emitting the Claimed event, and initiating the external
token.transfer call. -/
inductive Act where
  | markClaimed (month : Nat) (claimant : Address)
  | emitClaimed (claimant : Address) (balance : Nat)
  | tokenTransfer (toAddr : Address) (amount : Nat)
  deriving DecidableEq, Inhabited

/-- Pointwise update of a balance table. -/
def updBal (f : Address → Nat) (a : Address) (v : Nat) : Address → Nat :=
  fun x => if x = a then v else f x

/-- claimed[month][claimant] := true. -/
def markClaimed (s : MState) (m : Nat) (lp : Address) : MState :=
  { s with claimed := fun m' a => if m' = m ∧ a = lp then true else s.claimed m' a }

/-- Effect of a successful token.transfer from the contract to `toAddr`. -/
def payOut (s : MState) (toAddr : Address) (amt : Nat) : MState :=
  { s with contractBal := s.contractBal - amt,
           balances := updBal s.balances toAddr (s.balances toAddr + amt) }

/-- OpenZeppelin MerkleProof._hashPair: hash the smaller word first. -/
def hashPair (hash2 : Bytes32 → Bytes32 → Bytes32) (a b : Bytes32) : Bytes32 :=
  if a < b then hash2 a b else hash2 b a

/-- OpenZeppelin MerkleProof.processProof: fold the proof elements over the
leaf, from the leaf towards the root. -/
def processProof (hash2 : Bytes32 → Bytes32 → Bytes32) (proof : List Bytes32)
    (leaf : Bytes32) : Bytes32 :=
  proof.foldl (fun acc e => hashPair hash2 acc e) leaf

/-- MerkleRedeem.verifyClaim.  `leafHash lp bal` models
keccak256(abi.encodePacked(_liquidityProvider, _claimedBalance)). -/
def verifyClaim (hash2 : Bytes32 → Bytes32 → Bytes32)
    (leafHash : Address → Nat → Bytes32) (s : MState) (lp : Address)
    (m bal : Nat) (proof : List Bytes32) : Bool :=
  processProof hash2 proof (leafHash lp bal) == s.monthMerkleRoots m

/-- MerkleRedeem.disburse, paired with the trace of primitive effects it
performs (Claimed event emission, then the external token.transfer call), in
source order.  A transfer exceeding the contract's token balance fails, which
reverts the whole call. -/
def disburseT (s : MState) (lp : Address) (bal : Nat) :
    List Act × Except CErr (MState × List Ev) :=
  if 0 < bal then
    ([Act.emitClaimed lp bal, Act.tokenTransfer lp bal],
      if bal ≤ s.contractBal then Except.ok (payOut s lp bal, [Ev.claimedEv lp bal])
      else Except.error CErr.transferFailed)
  else ([], Except.ok (s, []))

/-- The two requires of claimMonth (and of each claimMonths iteration),
followed by the claimed-flag write: require(!claimed[month][lp]);
require(verifyClaim(...)); claimed[month][lp] = true. -/
def claimStep (hash2 : Bytes32 → Bytes32 → Bytes32)
    (leafHash : Address → Nat → Bytes32) (s : MState) (lp : Address)
    (m bal : Nat) (proof : List Bytes32) : Except CErr MState :=
  if s.claimed m lp then Except.error CErr.alreadyClaimed
  else if verifyClaim hash2 leafHash s lp m bal proof then
    Except.ok (markClaimed s m lp)
  else Except.error CErr.invalidProof

/-- MerkleRedeem.claimMonth with its effect trace: check not-claimed, check
the proof, mark claimed, then disburse. -/
def claimMonthT (hash2 : Bytes32 → Bytes32 → Bytes32)
    (leafHash : Address → Nat → Bytes32) (s : MState) (lp : Address)
    (m bal : Nat) (proof : List Bytes32) :
    List Act × Except CErr (MState × List Ev) :=
  match claimStep hash2 leafHash s lp m bal proof with
  | Except.error e => ([], Except.error e)
  | Except.ok s1 =>
    let p := disburseT s1 lp bal
    (Act.markClaimed m lp :: p.1, p.2)

/-- MerkleRedeem.claimMonth (result only). -/
def claimMonth (hash2 : Bytes32 → Bytes32 → Bytes32)
    (leafHash : Address → Nat → Bytes32) (s : MState) (lp : Address)
    (m bal : Nat) (proof : List Bytes32) : Except CErr (MState × List Ev) :=
  (claimMonthT hash2 leafHash s lp m bal proof).2

/-- The Claim struct of MerkleRedeem. -/
structure Claim where
  month : Nat
  balance : Nat
  merkleProof : List Bytes32

/-- The loop body of claimMonths: for each entry, require not-claimed,
require the proof, accumulate totalBalance, mark claimed.  Returns the
effect trace together with the final state and accumulated total. -/
def claimLoopT (hash2 : Bytes32 → Bytes32 → Bytes32)
    (leafHash : Address → Nat → Bytes32) (lp : Address) :
    MState → List Claim → Nat → List Act × Except CErr (MState × Nat)
  | s, [], total => ([], Except.ok (s, total))
  | s, c :: rest, total =>
    match claimStep hash2 leafHash s lp c.month c.balance c.merkleProof with
    | Except.error e => ([], Except.error e)
    | Except.ok s1 =>
      let p := claimLoopT hash2 leafHash lp s1 rest (total + c.balance)
      (Act.markClaimed c.month lp :: p.1, p.2)

/-- MerkleRedeem.claimMonths with its effect trace: run the loop over all
entries, then disburse the accumulated total once. -/
def claimMonthsT (hash2 : Bytes32 → Bytes32 → Bytes32)
    (leafHash : Address → Nat → Bytes32) (s : MState) (lp : Address)
    (cs : List Claim) : List Act × Except CErr (MState × List Ev) :=
  let p := claimLoopT hash2 leafHash lp s cs 0
  match p.2 with
  | Except.error e => (p.1, Except.error e)
  | Except.ok (s1, total) =>
    let q := disburseT s1 lp total
    (p.1 ++ q.1, q.2)

/-- MerkleRedeem.claimMonths (result only). -/
def claimMonths (hash2 : Bytes32 → Bytes32 → Bytes32)
    (leafHash : Address → Nat → Bytes32) (s : MState) (lp : Address)
    (cs : List Claim) : Except CErr (MState × List Ev) :=
  (claimMonthsT hash2 leafHash s lp cs).2

/-- MerkleRedeem.claimStatus.  In Solidity 0.8 the size expression
`1 + _end - _begin` reverts on underflow; that case is modelled as none. -/
def claimStatus (s : MState) (lp : Address) (b e : Nat) : Option (List Bool) :=
  if b ≤ 1 + e then
    some ((List.range (1 + e - b)).map (fun i => s.claimed (b + i) lp))
  else none

/-- MerkleRedeem.merkleRoots (the range getter over monthMerkleRoots). -/
def merkleRoots (s : MState) (b e : Nat) : Option (List Bytes32) :=
  if b ≤ 1 + e then
    some ((List.range (1 + e - b)).map (fun i => s.monthMerkleRoots (b + i)))
  else none

/-- MerkleRedeem.seedAllocations: onlyOwner; require the stored root is
bytes32(0); store the new root; transferFrom(owner, contract, allocation),
whose failure reverts the whole call.  transferFrom is modelled as a balance
move guarded by a sufficient-funds check. -/
def seedAllocations (s : MState) (caller m : Nat) (root alloc : Nat) :
    Except CErr MState :=
  if caller ≠ s.owner then Except.error CErr.notOwner
  else if s.monthMerkleRoots m ≠ 0 then Except.error CErr.rootAlreadySet
  else
    let s1 : MState :=
      { s with monthMerkleRoots := fun m' => if m' = m then root else s.monthMerkleRoots m' }
    if alloc ≤ s1.balances caller then
      Except.ok { s1 with
        balances := updBal s1.balances caller (s1.balances caller - alloc),
        contractBal := s1.contractBal + alloc }
    else Except.error CErr.transferFailed

/-- A transaction against the contract. -/
inductive Op where
  | claimMonthOp (lp m bal : Nat) (proof : List Bytes32)
  | claimMonthsOp (lp : Nat) (cs : List Claim)
  | seedOp (caller m root alloc : Nat)

/-- Commit semantics of a transaction: a reverted call leaves the state
unchanged. -/
def applyOp (hash2 : Bytes32 → Bytes32 → Bytes32)
    (leafHash : Address → Nat → Bytes32) (s : MState) : Op → MState
  | Op.claimMonthOp lp m bal proof =>
    match claimMonth hash2 leafHash s lp m bal proof with
    | Except.ok (s', _) => s'
    | Except.error _ => s
  | Op.claimMonthsOp lp cs =>
    match claimMonths hash2 leafHash s lp cs with
    | Except.ok (s', _) => s'
    | Except.error _ => s
  | Op.seedOp caller m root alloc =>
    match seedAllocations s caller m root alloc with
    | Except.ok s' => s'
    | Except.error _ => s

/-- The comparison point for the batch-vs-singles refinement: running
claimMonth once per entry, in order, threading the state; any failure fails
the whole sequence. -/
def claimMonthSeq (hash2 : Bytes32 → Bytes32 → Bytes32)
    (leafHash : Address → Nat → Bytes32) (lp : Address) :
    MState → List Claim → Except CErr (MState × List Ev)
  | s, [] => Except.ok (s, [])
  | s, c :: rest =>
    match claimMonth hash2 leafHash s lp c.month c.balance c.merkleProof with
    | Except.error e => Except.error e
    | Except.ok (s1, evs1) =>
      match claimMonthSeq hash2 leafHash lp s1 rest with
      | Except.error e => Except.error e
      | Except.ok (s2, evs2) => Except.ok (s2, evs1 ++ evs2)

/-- Sum of the balances of a batch of claims. -/
def claimsTotal : List Claim → Nat
  | [] => 0
  | c :: rest => c.balance + claimsTotal rest

/-! ## Subgraph event fetcher (snapshots/src/helpers/subgraph-events.js) -/

/-- One stakeSets row of the subgraph.  The subgraph's string ids are
modelled as naturals carrying the id ordering used by `id_gt` /
`orderBy: id`. -/
structure StakeSet where
  id : Nat
  address : Nat
  courtID : Nat
  stake : Nat
  newTotalStake : Nat
  logIndex : Nat
  blocknumber : Nat
  deriving DecidableEq, Inhabited

/-- The `id_gt` filter of the query; the initial cursor (the empty string in
the source, which every id compares greater than) is `none`. -/
def idGt (c : Option Nat) (s : StakeSet) : Bool :=
  match c with
  | none => true
  | some v => decide (v < s.id)

/-- The block-range filter of the query:
blocknumber_gte blockStart, blocknumber_lt blockEnd. -/
def inRangeB (blockStart blockEnd : Nat) (s : StakeSet) : Bool :=
  decide (blockStart ≤ s.blocknumber) && decide (s.blocknumber < blockEnd)

/-- The rows of the store matching the query's where-clause, in store
(= id, by the sortedness assumption) order. -/
def filteredAfter (store : List StakeSet) (blockStart blockEnd : Nat)
    (c : Option Nat) : List StakeSet :=
  store.filter (fun s => inRangeB blockStart blockEnd s && idGt c s)

/-- fetchStakeSets: one page of the subgraph query — the where-clause
filter, ordered by id ascending (the store is kept in id order), first
1000. -/
def fetchStakeSets (store : List StakeSet) (blockStart blockEnd : Nat)
    (c : Option Nat) : List StakeSet :=
  (filteredAfter store blockStart blockEnd c).take 1000

/-- The paging loop of fetchAllStakeSets: at most 1000 iterations
(`for (let i = 0; i < 1000; i++)`), each pushing one page; stop early when a
page is short; otherwise continue from the id of the page's element 999. -/
def fetchLoop (store : List StakeSet) (blockStart blockEnd : Nat) :
    Nat → Option Nat → List (List StakeSet)
  | 0, _ => []
  | fuel + 1, c =>
    let sets := fetchStakeSets store blockStart blockEnd c
    if sets.length < 1000 then [sets]
    else sets :: fetchLoop store blockStart blockEnd fuel (some ((sets.getD 999 default).id))

/-- fetchAllStakeSets: the concatenation (`batches.flat(1)`) of the pages. -/
def fetchAllStakeSets (store : List StakeSet) (blockStart blockEnd : Nat) :
    List StakeSet :=
  (fetchLoop store blockStart blockEnd 1000 none).flatten

/-- One parsed event, as produced by parseStakeSetsIntoEvents (the `args`
object is flattened into the record; address checksumming is identity under
the Nat address model). -/
structure StakeEvent where
  address : Nat
  courtID : Nat
  stake : Nat
  newTotalStake : Nat
  logIndex : Nat
  blockNumber : Nat
  deriving DecidableEq, Inhabited

/-- parseStakeSetsIntoEvents. -/
def parseStakeSetsIntoEvents (l : List StakeSet) : List StakeEvent :=
  l.map (fun s =>
    { address := s.address
      courtID := s.courtID
      stake := s.stake
      newTotalStake := s.newTotalStake
      logIndex := s.logIndex
      blockNumber := s.blocknumber })

/-- The comparator of the final sort in getStakeSets: by blockNumber, then
by logIndex. -/
def stakeEventLe (a b : StakeEvent) : Bool :=
  if a.blockNumber = b.blockNumber then decide (a.logIndex ≤ b.logIndex)
  else decide (a.blockNumber < b.blockNumber)

/-- How getStakeSets can fail: the explicit throw for a chain other than
Arbitrum One (42161), or a rejected network fetch (what a retry policy would
treat as transient). -/
inductive GsError where
  | unsupportedChain
  | fetchFailed
  deriving DecidableEq

/-- getStakeSets.  The external world is passed in as an oracle: `store` is
the subgraph's dataset behind the endpoint and `networkUp` tells whether the
HTTP fetches succeed.  An unsupported chainId throws before any fetch is
attempted, so the result does not depend on the oracle in that case. -/
def getStakeSets (store : List StakeSet) (networkUp : Bool)
    (blockStart blockEnd chainId : Nat) : Except GsError (List StakeEvent) :=
  if chainId = 42161 then
    if networkUp then
      Except.ok
        ((parseStakeSetsIntoEvents (fetchAllStakeSets store blockStart blockEnd)).mergeSort
          stakeEventLe)
    else Except.error GsError.fetchFailed
  else Except.error GsError.unsupportedChain

/-! ## Pool sizing (snapshots/cli.js) -/

/-- `const basis = BigNumber.from(1000000000)` — nine zeroes. -/
def basis : Int := 1000000000

/-- `stakePercent = totalPNKStaked.mul(basis).div(totalSupply)`.
ethers BigNumber division truncates toward zero, i.e. Int.tdiv. -/
def stakePercent (totalPNKStaked totalSupply : Int) : Int :=
  Int.tdiv (totalPNKStaked * basis) totalSupply

/-- `onePlusStakeMinusTarget = basis.add(target).sub(stakePercent)`. -/
def onePlusStakeMinusTarget (target totalPNKStaked totalSupply : Int) : Int :=
  basis + target - stakePercent totalPNKStaked totalSupply

/-- `fullReward = lastamount.mul(onePlusStakeMinusTarget).div(basis)`. -/
def fullReward (lastamount target totalPNKStaked totalSupply : Int) : Int :=
  Int.tdiv (lastamount * onePlusStakeMinusTarget target totalPNKStaked totalSupply) basis

/-- The target stake ratio of getDatesAndPeriod:
`min(29 + monthDiff, 50) * 10000000`. -/
def targetOf (monthDiff : Nat) : Int :=
  (min (29 + (monthDiff : Int)) 50) * 10000000

/-! ## Concrete instances used by the witnesses

`tHash` and `tLeaf` stand in for the two uses of keccak256 (pair hashing in
MerkleProof, leaf hashing in verifyClaim); the witnesses below only need
some computable functions there. -/

/-- A concrete stand-in for pair hashing, used only by witnesses. -/
def tHash (a b : Nat) : Nat := (a + b) * (a + b) + b + 1

/-- A concrete stand-in for leaf hashing, used only by witnesses. -/
def tLeaf (a bal : Nat) : Nat := a * 1000000 + bal + 1

/-- A seeded concrete contract state: month 1 carries the root for the
single-leaf tree of (address 1, 100), month 2 the root for (address 2, 0);
the owner is address 7. -/
def cState : MState :=
  { owner := 7
    monthMerkleRoots := fun m => if m = 1 then tLeaf 1 100 else if m = 2 then tLeaf 2 0 else 0
    claimed := fun _ _ => false
    contractBal := 1000
    balances := fun a => if a = 7 then 5000 else 0 }

/-- The state after seeding month 5 of `cState` with root 55: used by a
witness. -/
def seedOkFive : MState :=
  match seedAllocations cState 7 5 55 100 with
  | Except.ok t => t
  | Except.error _ => cState

/-- A tiny subgraph store (two rows, ids 1 and 2) used by a witness. -/
def smallStore : List StakeSet :=
  [{ id := 1, address := 11, courtID := 0, stake := 3, newTotalStake := 3,
     logIndex := 0, blocknumber := 5 },
   { id := 2, address := 12, courtID := 0, stake := 4, newTotalStake := 7,
     logIndex := 1, blocknumber := 20 }]

/-- One row of the large store below: distinct ids, all at block height 5. -/
def bigRec (i : Nat) : StakeSet :=
  { id := i + 1, address := 0, courtID := 0, stake := 0, newTotalStake := 0,
    logIndex := 0, blocknumber := 5 }

/-- A store with 1000001 rows inside the queried block range — one more
than the paging loop of fetchAllStakeSets can ever return. -/
def bigStore : List StakeSet := (List.range 1000001).map bigRec

/-! ## Helper lemmas about the contract state operations -/

@[simp] lemma markClaimed_claimed_self (s : MState) (m : Nat) (lp : Address) :
    (markClaimed s m lp).claimed m lp = true := by
  simp [markClaimed]

@[simp] lemma markClaimed_roots (s : MState) (m : Nat) (lp : Address) :
    (markClaimed s m lp).monthMerkleRoots = s.monthMerkleRoots := rfl

@[simp] lemma markClaimed_contractBal (s : MState) (m : Nat) (lp : Address) :
    (markClaimed s m lp).contractBal = s.contractBal := rfl

@[simp] lemma markClaimed_balances (s : MState) (m : Nat) (lp : Address) :
    (markClaimed s m lp).balances = s.balances := rfl

@[simp] lemma markClaimed_owner (s : MState) (m : Nat) (lp : Address) :
    (markClaimed s m lp).owner = s.owner := rfl

lemma markClaimed_claimed_other (s : MState) (m : Nat) (lp : Address)
    (m' : Nat) (a : Address) (h : ¬ (m' = m ∧ a = lp)) :
    (markClaimed s m lp).claimed m' a = s.claimed m' a := by
  simp [markClaimed, h]

lemma markClaimed_claimed_mono (s : MState) (m : Nat) (lp : Address)
    (m' : Nat) (a : Address) (h : s.claimed m' a = true) :
    (markClaimed s m lp).claimed m' a = true := by
  by_cases hc : m' = m ∧ a = lp
  · obtain ⟨h1, h2⟩ := hc; subst h1; subst h2; simp
  · rw [markClaimed_claimed_other s m lp m' a hc]; exact h

@[simp] lemma payOut_roots (s : MState) (a : Address) (amt : Nat) :
    (payOut s a amt).monthMerkleRoots = s.monthMerkleRoots := rfl

@[simp] lemma payOut_claimed (s : MState) (a : Address) (amt : Nat) :
    (payOut s a amt).claimed = s.claimed := rfl

@[simp] lemma payOut_owner (s : MState) (a : Address) (amt : Nat) :
    (payOut s a amt).owner = s.owner := rfl

@[simp] lemma payOut_contractBal (s : MState) (a : Address) (amt : Nat) :
    (payOut s a amt).contractBal = s.contractBal - amt := rfl

@[simp] lemma payOut_balances_self (s : MState) (a : Address) (amt : Nat) :
    (payOut s a amt).balances a = s.balances a + amt := by
  simp [payOut, updBal]

lemma payOut_balances_other (s : MState) (a : Address) (amt : Nat)
    (x : Address) (hx : x ≠ a) : (payOut s a amt).balances x = s.balances x := by
  simp [payOut, updBal, hx]

@[simp] lemma updBal_apply_self (f : Address → Nat) (a : Address) (v : Nat) :
    updBal f a v a = v := by
  simp [updBal]

@[simp] lemma updBal_same (f : Address → Nat) (a : Address) :
    updBal f a (f a) = f := by
  funext x
  by_cases hx : x = a
  · subst hx; simp [updBal]
  · simp [updBal, hx]

@[simp] lemma updBal_updBal (f : Address → Nat) (a : Address) (v w : Nat) :
    updBal (updBal f a v) a w = updBal f a w := by
  funext x
  by_cases hx : x = a
  · subst hx; simp [updBal]
  · simp [updBal, hx]

/-- Paying out zero tokens does not change the state. -/
lemma payOut_zero (s : MState) (a : Address) : payOut s a 0 = s := by
  cases s with
  | mk owner roots claimed cb bals =>
    simp only [payOut, Nat.add_zero, Nat.sub_zero, updBal_same]

/-- Composing two payouts to the same account. -/
lemma payOut_payOut (s : MState) (a : Address) (b1 b2 : Nat) :
    payOut (payOut s a b1) a b2 = payOut s a (b1 + b2) := by
  cases s with
  | mk owner roots claimed cb bals =>
    simp only [payOut, updBal_apply_self, updBal_updBal, Nat.sub_sub, Nat.add_assoc]

/-- A successful disburse is exactly a payout plus its events. -/
lemma disburseT_ok (s : MState) (lp : Address) (bal : Nat)
    (hbal : bal ≤ s.contractBal) :
    (disburseT s lp bal).2 = Except.ok (payOut s lp bal,
      if 0 < bal then [Ev.claimedEv lp bal] else []) := by
  by_cases h : 0 < bal
  · simp [disburseT, h, hbal]
  · have hb : bal = 0 := by omega
    subst hb
    simp [disburseT, payOut_zero]

/-! ## Claim theorems -/

/-- C5 (counterexample): the pool-sizing computation is not clamped to
non-negative.  With lastamount = 1000, the January-2025 target
(targetOf 0 = 29 x 10^7), totalPNKStaked = 2 and totalSupply = 1, the stake
percent is 2 x 10^9 > basis + target, and the computed full reward is
negative, contradicting "never yields a negative pool". -/
theorem fullReward_negative_cex : fullReward 1000 (targetOf 0) 2 1 < 0 := by
  decide

/-- C5 (amended): the pool is lastamount x (basis + target - stakePercent)
/ basis, computed in arbitrary-precision integers (no underflow); it is
non-negative whenever the stake percent does not exceed basis + target and
lastamount is non-negative, but it is not clamped, so an overshooting stake
percent can make it negative (see the counterexample). -/
theorem fullReward_nonneg_of_no_overshoot (la t ts sup : Int) (hla : 0 ≤ la)
    (hsp : stakePercent ts sup ≤ basis + t) :
    0 ≤ fullReward la t ts sup := by
  have hm : 0 ≤ onePlusStakeMinusTarget t ts sup := by
    simp only [onePlusStakeMinusTarget]
    omega
  exact Int.tdiv_nonneg (mul_nonneg hla hm) (by norm_num [basis])

theorem fullReward_nonneg_of_no_overshoot_witness :
    (0 : Int) ≤ 1000 ∧ stakePercent 1 2 ≤ basis + targetOf 0 ∧
      0 ≤ fullReward 1000 (targetOf 0) 1 2 :=
  ⟨by decide, by decide, fullReward_nonneg_of_no_overshoot 1000 (targetOf 0) 1 2
    (by decide) (by decide)⟩

/-- C6: for begin ≤ end, claimStatus returns an array of length
end - begin + 1 whose i-th entry is the claimed flag of period begin + i,
and merkleRoots returns an array of the same length whose i-th entry is the
stored root of period begin + i, both in range order. -/
theorem claimStatus_merkleRoots_range (s : MState) (lp : Address) (b e : Nat)
    (hbe : b ≤ e) :
    ∃ cl rl, claimStatus s lp b e = some cl ∧ merkleRoots s b e = some rl ∧
      cl.length = e - b + 1 ∧ rl.length = e - b + 1 ∧
      (∀ i, ∀ hi : i < cl.length, cl.get ⟨i, hi⟩ = s.claimed (b + i) lp) ∧
      (∀ i, ∀ hi : i < rl.length, rl.get ⟨i, hi⟩ = s.monthMerkleRoots (b + i)) := by
  have hb1 : b ≤ 1 + e := by omega
  refine ⟨(List.range (1 + e - b)).map (fun i => s.claimed (b + i) lp),
    (List.range (1 + e - b)).map (fun i => s.monthMerkleRoots (b + i)),
    by simp [claimStatus, hb1], by simp [merkleRoots, hb1], by simp; omega,
    by simp; omega, ?_, ?_⟩
  · intro i hi
    have hr : i < 1 + e - b := by simpa using hi
    simp [List.get_eq_getElem]
  · intro i hi
    have hr : i < 1 + e - b := by simpa using hi
    simp [List.get_eq_getElem]

theorem claimStatus_merkleRoots_range_witness :
    0 ≤ 1 ∧ ∃ cl rl, claimStatus cState 1 0 1 = some cl ∧
      merkleRoots cState 0 1 = some rl ∧
      cl.length = 1 - 0 + 1 ∧ rl.length = 1 - 0 + 1 ∧
      (∀ i, ∀ hi : i < cl.length, cl.get ⟨i, hi⟩ = cState.claimed (0 + i) 1) ∧
      (∀ i, ∀ hi : i < rl.length, rl.get ⟨i, hi⟩ = cState.monthMerkleRoots (0 + i)) :=
  ⟨by decide, claimStatus_merkleRoots_range cState 1 0 1 (by decide)⟩

/-- C8: for every chainId other than 42161, getStakeSets throws the
unsupported-chain error no matter what the network and the subgraph hold
(so before any fetch), this error is distinct from the transient
network-failure error, and the result does not depend on the external
oracle at all. -/
theorem getStakeSets_unsupported_chain (chainId blockStart blockEnd : Nat)
    (hne : chainId ≠ 42161) :
    (∀ store networkUp, getStakeSets store networkUp blockStart blockEnd chainId =
        Except.error GsError.unsupportedChain) ∧
    (∀ store networkUp, getStakeSets store networkUp blockStart blockEnd chainId ≠
        Except.error GsError.fetchFailed) ∧
    (∀ store1 up1 store2 up2,
        getStakeSets store1 up1 blockStart blockEnd chainId =
          getStakeSets store2 up2 blockStart blockEnd chainId) := by
  refine ⟨fun store networkUp => by simp [getStakeSets, hne],
    fun store networkUp => by simp [getStakeSets, hne],
    fun store1 up1 store2 up2 => by simp [getStakeSets, hne]⟩

theorem getStakeSets_unsupported_chain_witness :
    (1 ≠ 42161) ∧
      (∀ store networkUp, getStakeSets store networkUp 0 10 1 =
          Except.error GsError.unsupportedChain) ∧
      (∀ store networkUp, getStakeSets store networkUp 0 10 1 ≠
          Except.error GsError.fetchFailed) ∧
      (∀ store1 up1 store2 up2,
          getStakeSets store1 up1 0 10 1 = getStakeSets store2 up2 0 10 1) :=
  ⟨by decide, getStakeSets_unsupported_chain 1 0 10 (by decide)⟩

/-- Characterization of a successful seedAllocations call. -/
lemma seedAllocations_ok (s : MState) (caller m root alloc : Nat)
    (hown : caller = s.owner) (hr : s.monthMerkleRoots m = 0)
    (hbal : alloc ≤ s.balances caller) :
    seedAllocations s caller m root alloc = Except.ok
      { owner := s.owner
        monthMerkleRoots := fun m' => if m' = m then root else s.monthMerkleRoots m'
        claimed := s.claimed
        contractBal := s.contractBal + alloc
        balances := updBal s.balances caller (s.balances caller - alloc) } := by
  have hco : ¬ caller ≠ s.owner := by simp [hown]
  simp [seedAllocations, hco, hr, hbal]

/-- C9: given an authorized caller and sufficient owner funds,
seedAllocations rejects with the root-rewrite error iff the stored root for
the period is nonzero; seeding with the zero root succeeds but leaves the
stored root zero, so a later seedAllocations for the same period succeeds
and installs a new root. -/
theorem seedAllocations_zero_root_reseed (s : MState) (caller m root alloc : Nat)
    (hown : caller = s.owner) (hbal : alloc ≤ s.balances caller) :
    (s.monthMerkleRoots m ≠ 0 →
      seedAllocations s caller m root alloc = Except.error CErr.rootAlreadySet) ∧
    (s.monthMerkleRoots m = 0 →
      ∃ s', seedAllocations s caller m root alloc = Except.ok s' ∧
        s'.monthMerkleRoots m = root ∧ s'.owner = s.owner) ∧
    (s.monthMerkleRoots m = 0 →
      ∀ s', seedAllocations s caller m 0 alloc = Except.ok s' →
        s'.monthMerkleRoots m = 0 ∧
        ∀ root2 alloc2, alloc2 ≤ s'.balances caller →
          ∃ s'', seedAllocations s' caller m root2 alloc2 = Except.ok s'' ∧
            s''.monthMerkleRoots m = root2) := by
  have hco : ¬ caller ≠ s.owner := by simp [hown]
  refine ⟨fun hr => by simp [seedAllocations, hco, hr], fun hr => ?_, fun hr s' hs' => ?_⟩
  · exact ⟨_, seedAllocations_ok s caller m root alloc hown hr hbal, by simp, rfl⟩
  · rw [seedAllocations_ok s caller m 0 alloc hown hr hbal] at hs'
    injection hs' with hs'
    subst hs'
    refine ⟨by simp, fun root2 alloc2 hbal2 => ?_⟩
    exact ⟨_, seedAllocations_ok _ caller m root2 alloc2 hown (by simp) hbal2, by simp⟩

theorem seedAllocations_zero_root_reseed_witness :
    (7 : Nat) = cState.owner ∧ 400 ≤ cState.balances 7 ∧
      ((cState.monthMerkleRoots 3 ≠ 0 →
        seedAllocations cState 7 3 55 400 = Except.error CErr.rootAlreadySet) ∧
      (cState.monthMerkleRoots 3 = 0 →
        ∃ s', seedAllocations cState 7 3 55 400 = Except.ok s' ∧
          s'.monthMerkleRoots 3 = 55 ∧ s'.owner = cState.owner) ∧
      (cState.monthMerkleRoots 3 = 0 →
        ∀ s', seedAllocations cState 7 3 0 400 = Except.ok s' →
          s'.monthMerkleRoots 3 = 0 ∧
          ∀ root2 alloc2, alloc2 ≤ s'.balances 7 →
            ∃ s'', seedAllocations s' 7 3 root2 alloc2 = Except.ok s'' ∧
              s''.monthMerkleRoots 3 = root2)) :=
  ⟨by decide, by decide, seedAllocations_zero_root_reseed cState 7 3 55 400
    (by decide) (by decide)⟩

/-- The requires-and-mark phase succeeds exactly on an unclaimed pair with a
verifying proof. -/
lemma claimStep_ok (hash2 : Bytes32 → Bytes32 → Bytes32)
    (leafHash : Address → Nat → Bytes32) (s : MState) (lp : Address)
    (m bal : Nat) (proof : List Bytes32) (hnc : s.claimed m lp = false)
    (hv : verifyClaim hash2 leafHash s lp m bal proof = true) :
    claimStep hash2 leafHash s lp m bal proof = Except.ok (markClaimed s m lp) := by
  simp [claimStep, hnc, hv]

/-- Characterization of a successful claimMonth call. -/
lemma claimMonth_ok (hash2 : Bytes32 → Bytes32 → Bytes32)
    (leafHash : Address → Nat → Bytes32) (s : MState) (lp : Address)
    (m bal : Nat) (proof : List Bytes32) (hnc : s.claimed m lp = false)
    (hv : verifyClaim hash2 leafHash s lp m bal proof = true)
    (hbal : bal ≤ s.contractBal) :
    claimMonth hash2 leafHash s lp m bal proof =
      Except.ok (payOut (markClaimed s m lp) lp bal,
        if 0 < bal then [Ev.claimedEv lp bal] else []) := by
  unfold claimMonth claimMonthT
  rw [claimStep_ok hash2 leafHash s lp m bal proof hnc hv]
  exact disburseT_ok (markClaimed s m lp) lp bal (by simpa using hbal)

/-- A claim for an already-claimed pair reverts with the already-claimed
require. -/
lemma claimMonth_already (hash2 : Bytes32 → Bytes32 → Bytes32)
    (leafHash : Address → Nat → Bytes32) (s : MState) (lp : Address)
    (m bal : Nat) (proof : List Bytes32) (hc : s.claimed m lp = true) :
    claimMonth hash2 leafHash s lp m bal proof = Except.error CErr.alreadyClaimed := by
  simp [claimMonth, claimMonthT, claimStep, hc]

/-- C1: on a seeded period with a valid inclusion proof for (lp, bal), an
unclaimed pair and a sufficiently funded escrow, claimMonth succeeds,
marks (m, lp) claimed, moves exactly bal tokens from the contract to lp and
touches nothing else; the identical second call reverts with the
already-claimed require (and, reverting, changes no state and performs no
transfer). -/
theorem claimMonth_exactly_once (hash2 : Bytes32 → Bytes32 → Bytes32)
    (leafHash : Address → Nat → Bytes32) (s : MState) (lp : Address)
    (m bal : Nat) (proof : List Bytes32) (hnc : s.claimed m lp = false)
    (hv : verifyClaim hash2 leafHash s lp m bal proof = true)
    (hbal : bal ≤ s.contractBal) :
    ∃ s' evs, claimMonth hash2 leafHash s lp m bal proof = Except.ok (s', evs) ∧
      s'.claimed m lp = true ∧
      s'.contractBal = s.contractBal - bal ∧
      s'.balances lp = s.balances lp + bal ∧
      s'.monthMerkleRoots = s.monthMerkleRoots ∧
      (∀ a, a ≠ lp → s'.balances a = s.balances a) ∧
      (∀ m' a, ¬ (m' = m ∧ a = lp) → s'.claimed m' a = s.claimed m' a) ∧
      claimMonth hash2 leafHash s' lp m bal proof = Except.error CErr.alreadyClaimed := by
  refine ⟨payOut (markClaimed s m lp) lp bal, _,
    claimMonth_ok hash2 leafHash s lp m bal proof hnc hv hbal,
    by simp, by simp, by simp, by simp, ?_, ?_, ?_⟩
  · intro a ha
    rw [payOut_balances_other _ _ _ _ ha, markClaimed_balances]
  · intro m' a h
    rw [payOut_claimed, markClaimed_claimed_other s m lp m' a h]
  · exact claimMonth_already hash2 leafHash _ lp m bal proof (by simp)

theorem claimMonth_exactly_once_witness :
    cState.claimed 1 1 = false ∧ verifyClaim tHash tLeaf cState 1 1 100 [] = true ∧
      100 ≤ cState.contractBal ∧
      ∃ s' evs, claimMonth tHash tLeaf cState 1 1 100 [] = Except.ok (s', evs) ∧
        s'.claimed 1 1 = true ∧
        s'.contractBal = cState.contractBal - 100 ∧
        s'.balances 1 = cState.balances 1 + 100 ∧
        s'.monthMerkleRoots = cState.monthMerkleRoots ∧
        (∀ a, a ≠ 1 → s'.balances a = cState.balances a) ∧
        (∀ m' a, ¬ (m' = 1 ∧ a = 1) → s'.claimed m' a = cState.claimed m' a) ∧
        claimMonth tHash tLeaf s' 1 1 100 [] = Except.error CErr.alreadyClaimed :=
  ⟨by decide, by decide, by decide,
    claimMonth_exactly_once tHash tLeaf cState 1 1 100 [] (by decide) (by decide) (by decide)⟩

/-- When the claimMonths loop completes, the call reduces to the final
aggregate disburse. -/
lemma claimMonths_eq_of_loop (hash2 : Bytes32 → Bytes32 → Bytes32)
    (leafHash : Address → Nat → Bytes32) (s : MState) (lp : Address)
    (cs : List Claim) (s1 : MState) (total : Nat)
    (hloop : (claimLoopT hash2 leafHash lp s cs 0).2 = Except.ok (s1, total)) :
    claimMonths hash2 leafHash s lp cs = (disburseT s1 lp total).2 := by
  simp only [claimMonths, claimMonthsT]
  rw [hloop]

/-- When the claimMonths loop reverts, the whole call reverts with that
error. -/
lemma claimMonths_eq_of_loop_error (hash2 : Bytes32 → Bytes32 → Bytes32)
    (leafHash : Address → Nat → Bytes32) (s : MState) (lp : Address)
    (cs : List Claim) (e : CErr)
    (hloop : (claimLoopT hash2 leafHash lp s cs 0).2 = Except.error e) :
    claimMonths hash2 leafHash s lp cs = Except.error e := by
  simp only [claimMonths, claimMonthsT]
  rw [hloop]

/-- C10: a claimMonth with a valid proof for amount 0 succeeds, marks the
pair claimed, moves no tokens and emits no Claimed event; likewise a
claimMonths whose accumulated total is 0 succeeds with no transfer and no
event. -/
theorem claimMonth_zero_amount (hash2 : Bytes32 → Bytes32 → Bytes32)
    (leafHash : Address → Nat → Bytes32) (s : MState) (lp : Address)
    (m : Nat) (proof : List Bytes32) (hnc : s.claimed m lp = false)
    (hv : verifyClaim hash2 leafHash s lp m 0 proof = true) :
    claimMonth hash2 leafHash s lp m 0 proof = Except.ok (markClaimed s m lp, []) ∧
      (markClaimed s m lp).claimed m lp = true ∧
      (markClaimed s m lp).contractBal = s.contractBal ∧
      (markClaimed s m lp).balances = s.balances ∧
      (∀ s' cs s1, (claimLoopT hash2 leafHash lp s' cs 0).2 = Except.ok (s1, 0) →
        claimMonths hash2 leafHash s' lp cs = Except.ok (s1, [])) := by
  refine ⟨?_, by simp, by simp, by simp, ?_⟩
  · rw [claimMonth_ok hash2 leafHash s lp m 0 proof hnc hv (Nat.zero_le _)]
    simp [payOut_zero]
  · intro s' cs s1 hloop
    rw [claimMonths_eq_of_loop hash2 leafHash s' lp cs s1 0 hloop]
    simp [disburseT]

theorem claimMonth_zero_amount_witness :
    cState.claimed 2 2 = false ∧ verifyClaim tHash tLeaf cState 2 2 0 [] = true ∧
      (claimMonth tHash tLeaf cState 2 2 0 [] = Except.ok (markClaimed cState 2 2, []) ∧
        (markClaimed cState 2 2).claimed 2 2 = true ∧
        (markClaimed cState 2 2).contractBal = cState.contractBal ∧
        (markClaimed cState 2 2).balances = cState.balances ∧
        (∀ s' cs s1, (claimLoopT tHash tLeaf 2 s' cs 0).2 = Except.ok (s1, 0) →
          claimMonths tHash tLeaf s' 2 cs = Except.ok (s1, []))) :=
  ⟨by decide, by decide, claimMonth_zero_amount tHash tLeaf cState 2 2 [] (by decide) (by decide)⟩

/-- Inversion of a successful claimStep. -/
lemma claimStep_ok_inv (hash2 : Bytes32 → Bytes32 → Bytes32)
    (leafHash : Address → Nat → Bytes32) (s : MState) (lp : Address)
    (m bal : Nat) (proof : List Bytes32) (s1 : MState)
    (h : claimStep hash2 leafHash s lp m bal proof = Except.ok s1) :
    s1 = markClaimed s m lp ∧ s.claimed m lp = false ∧
      verifyClaim hash2 leafHash s lp m bal proof = true := by
  by_cases hc : s.claimed m lp
  · simp [claimStep, hc] at h
  · by_cases hv : verifyClaim hash2 leafHash s lp m bal proof
    · simp [claimStep, hc, hv] at h
      exact ⟨h.symm, by simpa using hc, hv⟩
    · simp [claimStep, hc, hv] at h

/-- Inversion of a successful disburse. -/
lemma disburseT_ok_inv (s : MState) (lp : Address) (bal : Nat)
    (s' : MState) (evs : List Ev)
    (h : (disburseT s lp bal).2 = Except.ok (s', evs)) :
    s' = payOut s lp bal ∧ bal ≤ s.contractBal := by
  by_cases hp : 0 < bal
  · by_cases hb : bal ≤ s.contractBal
    · simp only [disburseT, if_pos hp, if_pos hb] at h
      exact ⟨(Prod.mk.injEq _ _ _ _ ▸ (Except.ok.injEq _ _ ▸ h)).1.symm, hb⟩
    · simp [disburseT, hp, hb] at h
  · have hz : bal = 0 := by omega
    subst hz
    simp only [disburseT, if_neg hp] at h
    have := (Except.ok.injEq _ _ ▸ h)
    rw [payOut_zero]
    exact ⟨((Prod.mk.injEq _ _ _ _).mp this).1.symm, Nat.zero_le _⟩

/-- A successful claimMonth does not touch the stored roots or the owner. -/
lemma claimMonth_ok_frame (hash2 : Bytes32 → Bytes32 → Bytes32)
    (leafHash : Address → Nat → Bytes32) (s : MState) (lp : Address)
    (m bal : Nat) (proof : List Bytes32) (s' : MState) (evs : List Ev)
    (h : claimMonth hash2 leafHash s lp m bal proof = Except.ok (s', evs)) :
    s'.monthMerkleRoots = s.monthMerkleRoots ∧ s'.owner = s.owner := by
  unfold claimMonth claimMonthT at h
  cases hs : claimStep hash2 leafHash s lp m bal proof with
  | error e => rw [hs] at h; simp at h
  | ok s1 =>
    rw [hs] at h
    simp only at h
    obtain ⟨h1, -, -⟩ := claimStep_ok_inv hash2 leafHash s lp m bal proof s1 hs
    obtain ⟨h2, -⟩ := disburseT_ok_inv s1 lp bal s' evs h
    subst h1 h2
    simp

/-- The claimMonths loop only writes claimed flags: roots, owner and the
token balances are unchanged, and the accumulated total is the sum of the
entries' balances. -/
lemma claimLoopT_ok_frame (hash2 : Bytes32 → Bytes32 → Bytes32)
    (leafHash : Address → Nat → Bytes32) (lp : Address) :
    ∀ (cs : List Claim) (s : MState) (total : Nat) (s1 : MState) (tot : Nat),
      (claimLoopT hash2 leafHash lp s cs total).2 = Except.ok (s1, tot) →
      s1.monthMerkleRoots = s.monthMerkleRoots ∧ s1.contractBal = s.contractBal ∧
        s1.balances = s.balances ∧ s1.owner = s.owner ∧ tot = total + claimsTotal cs
  | [], s, total, s1, tot => by
    intro h
    simp only [claimLoopT] at h
    have := Except.ok.injEq _ _ ▸ h
    obtain ⟨h1, h2⟩ := (Prod.mk.injEq _ _ _ _).mp this
    subst h1
    simp [claimsTotal, h2.symm]
  | c :: rest, s, total, s1, tot => by
    intro h
    simp only [claimLoopT] at h
    cases hs : claimStep hash2 leafHash s lp c.month c.balance c.merkleProof with
    | error e => rw [hs] at h; simp at h
    | ok sm =>
      rw [hs] at h
      simp only at h
      obtain ⟨h1, -, -⟩ := claimStep_ok_inv hash2 leafHash s lp c.month c.balance c.merkleProof sm hs
      obtain ⟨g1, g2, g3, g4, g5⟩ := claimLoopT_ok_frame hash2 leafHash lp rest sm
        (total + c.balance) s1 tot h
      subst h1
      refine ⟨by simpa using g1, by simpa using g2, by simpa using g3, by simpa using g4, ?_⟩
      rw [g5]
      simp [claimsTotal]
      omega

/-- A successful claimMonths does not touch the stored roots or the owner. -/
lemma claimMonths_ok_frame (hash2 : Bytes32 → Bytes32 → Bytes32)
    (leafHash : Address → Nat → Bytes32) (s : MState) (lp : Address)
    (cs : List Claim) (s' : MState) (evs : List Ev)
    (h : claimMonths hash2 leafHash s lp cs = Except.ok (s', evs)) :
    s'.monthMerkleRoots = s.monthMerkleRoots ∧ s'.owner = s.owner := by
  cases hl : (claimLoopT hash2 leafHash lp s cs 0).2 with
  | error e => rw [claimMonths_eq_of_loop_error hash2 leafHash s lp cs e hl] at h; simp at h
  | ok p =>
    obtain ⟨s1, total⟩ := p
    rw [claimMonths_eq_of_loop hash2 leafHash s lp cs s1 total hl] at h
    obtain ⟨h2, -⟩ := disburseT_ok_inv s1 lp total s' evs h
    obtain ⟨g1, -, -, g4, -⟩ := claimLoopT_ok_frame hash2 leafHash lp cs s 0 s1 total hl
    subst h2
    simp [g1, g4]

/-- Inversion of a successful seedAllocations. -/
lemma seedAllocations_ok_inv (s : MState) (caller m root alloc : Nat) (s' : MState)
    (h : seedAllocations s caller m root alloc = Except.ok s') :
    caller = s.owner ∧ s.monthMerkleRoots m = 0 ∧ alloc ≤ s.balances caller ∧
      s'.owner = s.owner ∧
      s'.monthMerkleRoots = fun m' => if m' = m then root else s.monthMerkleRoots m' := by
  by_cases h1 : caller ≠ s.owner
  · simp [seedAllocations, h1] at h
  · by_cases h2 : s.monthMerkleRoots m ≠ 0
    · simp [seedAllocations, h1, h2] at h
    · by_cases h3 : alloc ≤ s.balances caller
      · rw [seedAllocations_ok s caller m root alloc (by simpa using h1)
          (by simpa using h2) h3] at h
        injection h with h
        subst h
        exact ⟨by simpa using h1, by simpa using h2, h3, rfl, rfl⟩
      · simp only [seedAllocations, if_neg (by simpa using h1 : ¬ caller ≠ s.owner),
          if_neg (by simpa using h2 : ¬ s.monthMerkleRoots m ≠ 0)] at h
        rw [if_neg (by simpa using h3)] at h
        simp at h

/-- Any committed transaction preserves a nonzero stored root. -/
lemma applyOp_preserves_root (hash2 : Bytes32 → Bytes32 → Bytes32)
    (leafHash : Address → Nat → Bytes32) (m : Nat) (r : Bytes32) (hr : r ≠ 0)
    (s : MState) (hm : s.monthMerkleRoots m = r) (op : Op) :
    (applyOp hash2 leafHash s op).monthMerkleRoots m = r := by
  cases op with
  | claimMonthOp lp m' bal proof =>
    simp only [applyOp]
    cases hc : claimMonth hash2 leafHash s lp m' bal proof with
    | error e => exact hm
    | ok p =>
      obtain ⟨s', evs⟩ := p
      rw [(claimMonth_ok_frame hash2 leafHash s lp m' bal proof s' evs hc).1]
      exact hm
  | claimMonthsOp lp cs =>
    simp only [applyOp]
    cases hc : claimMonths hash2 leafHash s lp cs with
    | error e => exact hm
    | ok p =>
      obtain ⟨s', evs⟩ := p
      rw [(claimMonths_ok_frame hash2 leafHash s lp cs s' evs hc).1]
      exact hm
  | seedOp caller m' root alloc =>
    simp only [applyOp]
    cases hc : seedAllocations s caller m' root alloc with
    | error e => exact hm
    | ok s' =>
      obtain ⟨-, hz, -, -, hroots⟩ := seedAllocations_ok_inv s caller m' root alloc s' hc
      rw [hroots]
      have hne : m ≠ m' := by
        intro he
        rw [he] at hm
        exact hr (hm.symm.trans hz)
      simp [hne, hm]

/-- A nonzero stored root survives any sequence of committed transactions. -/
lemma foldl_applyOp_preserves_root (hash2 : Bytes32 → Bytes32 → Bytes32)
    (leafHash : Address → Nat → Bytes32) (m : Nat) (r : Bytes32) (hr : r ≠ 0) :
    ∀ (ops : List Op) (s : MState), s.monthMerkleRoots m = r →
      (ops.foldl (applyOp hash2 leafHash) s).monthMerkleRoots m = r
  | [], s, hm => hm
  | op :: rest, s, hm => by
    rw [List.foldl_cons]
    exact foldl_applyOp_preserves_root hash2 leafHash m r hr rest _
      (applyOp_preserves_root hash2 leafHash m r hr s hm op)

/-- C2 (counterexample): the claim fails when the first seed installs the
zero root.  seedAllocations for month 5 with root bytes32(0) succeeds, and
the subsequent seedAllocations for the same month also succeeds instead of
failing. -/
theorem seeded_root_immutable_cex :
    (seedAllocations cState 7 5 0 100).isOk = true ∧
      ((seedAllocations cState 7 5 0 100).bind
        (fun s0 => seedAllocations s0 7 5 55 200)).isOk = true := by
  constructor
  · rfl
  · rfl

/-- C2 (amended): once seedAllocations has succeeded for a period with a
NONZERO root rootX, the stored root for that period equals rootX after any
sequence of committed transactions, every later seed call for the period
fails (whoever the caller is), and the failed call commits no state
change. -/
theorem seeded_root_immutable (hash2 : Bytes32 → Bytes32 → Bytes32)
    (leafHash : Address → Nat → Bytes32) (s s₀ : MState)
    (caller m rootX alloc : Nat) (hr : rootX ≠ 0)
    (hseed : seedAllocations s caller m rootX alloc = Except.ok s₀)
    (ops : List Op) (caller2 rootY alloc2 : Nat) :
    ((ops.foldl (applyOp hash2 leafHash) s₀).monthMerkleRoots m = rootX) ∧
    (∃ e, seedAllocations (ops.foldl (applyOp hash2 leafHash) s₀) caller2 m rootY alloc2 =
        Except.error e) ∧
    (applyOp hash2 leafHash (ops.foldl (applyOp hash2 leafHash) s₀)
        (Op.seedOp caller2 m rootY alloc2) = ops.foldl (applyOp hash2 leafHash) s₀) := by
  obtain ⟨-, -, -, -, hroots⟩ := seedAllocations_ok_inv s caller m rootX alloc s₀ hseed
  have hm0 : s₀.monthMerkleRoots m = rootX := by rw [hroots]; simp
  have hmt := foldl_applyOp_preserves_root hash2 leafHash m rootX hr ops s₀ hm0
  have hfail : ∃ e, seedAllocations (ops.foldl (applyOp hash2 leafHash) s₀) caller2 m
      rootY alloc2 = Except.error e := by
    by_cases h1 : caller2 ≠ (ops.foldl (applyOp hash2 leafHash) s₀).owner
    · exact ⟨CErr.notOwner, by simp [seedAllocations, h1]⟩
    · refine ⟨CErr.rootAlreadySet, ?_⟩
      have h2 : (ops.foldl (applyOp hash2 leafHash) s₀).monthMerkleRoots m ≠ 0 := by
        rw [hmt]; exact hr
      simp [seedAllocations, h1, h2]
  refine ⟨hmt, hfail, ?_⟩
  obtain ⟨e, he⟩ := hfail
  simp [applyOp, he]

theorem seeded_root_immutable_witness :
    (55 : Nat) ≠ 0 ∧
      seedAllocations cState 7 5 55 100 = Except.ok (seedOkFive) ∧
      ((([] : List Op).foldl (applyOp tHash tLeaf) seedOkFive).monthMerkleRoots 5 = 55 ∧
        (∃ e, seedAllocations (([] : List Op).foldl (applyOp tHash tLeaf) seedOkFive) 7 5 66 100 =
          Except.error e) ∧
        (applyOp tHash tLeaf (([] : List Op).foldl (applyOp tHash tLeaf) seedOkFive)
          (Op.seedOp 7 5 66 100) = ([] : List Op).foldl (applyOp tHash tLeaf) seedOkFive)) :=
  ⟨by decide, rfl,
    seeded_root_immutable tHash tLeaf cState seedOkFive 7 5 55 100 (by decide) rfl [] 7 66 100⟩

@[simp] lemma act_default : (default : Act) = Act.markClaimed 0 0 := rfl

lemma disburseT_acts_pos (s : MState) (lp : Address) (bal : Nat) (h : 0 < bal) :
    (disburseT s lp bal).1 = [Act.emitClaimed lp bal, Act.tokenTransfer lp bal] := by
  simp [disburseT, h]

lemma disburseT_acts_zero (s : MState) (lp : Address) :
    (disburseT s lp 0).1 = [] := by
  simp [disburseT]

lemma claimMonthT_acts_error (hash2 : Bytes32 → Bytes32 → Bytes32)
    (leafHash : Address → Nat → Bytes32) (s : MState) (lp : Address)
    (m bal : Nat) (proof : List Bytes32) (e : CErr)
    (hs : claimStep hash2 leafHash s lp m bal proof = Except.error e) :
    (claimMonthT hash2 leafHash s lp m bal proof).1 = [] := by
  simp [claimMonthT, hs]

lemma claimMonthT_acts_ok (hash2 : Bytes32 → Bytes32 → Bytes32)
    (leafHash : Address → Nat → Bytes32) (s : MState) (lp : Address)
    (m bal : Nat) (proof : List Bytes32) (s1 : MState)
    (hs : claimStep hash2 leafHash s lp m bal proof = Except.ok s1) :
    (claimMonthT hash2 leafHash s lp m bal proof).1 =
      Act.markClaimed m lp :: (disburseT s1 lp bal).1 := by
  simp [claimMonthT, hs]

lemma claimMonthsT_acts_error (hash2 : Bytes32 → Bytes32 → Bytes32)
    (leafHash : Address → Nat → Bytes32) (s : MState) (lp : Address)
    (cs : List Claim) (e : CErr)
    (hl : (claimLoopT hash2 leafHash lp s cs 0).2 = Except.error e) :
    (claimMonthsT hash2 leafHash s lp cs).1 = (claimLoopT hash2 leafHash lp s cs 0).1 := by
  simp only [claimMonthsT]
  rw [hl]

lemma claimMonthsT_acts_ok (hash2 : Bytes32 → Bytes32 → Bytes32)
    (leafHash : Address → Nat → Bytes32) (s : MState) (lp : Address)
    (cs : List Claim) (s1 : MState) (total : Nat)
    (hl : (claimLoopT hash2 leafHash lp s cs 0).2 = Except.ok (s1, total)) :
    (claimMonthsT hash2 leafHash s lp cs).1 =
      (claimLoopT hash2 leafHash lp s cs 0).1 ++ (disburseT s1 lp total).1 := by
  simp only [claimMonthsT]
  rw [hl]

/-- Every effect recorded by the claimMonths loop is a claimed-flag write
for the given claimant. -/
lemma claimLoopT_acts_marks (hash2 : Bytes32 → Bytes32 → Bytes32)
    (leafHash : Address → Nat → Bytes32) (lp : Address) :
    ∀ (cs : List Claim) (s : MState) (total : Nat) (a : Act),
      a ∈ (claimLoopT hash2 leafHash lp s cs total).1 →
      ∃ mo, a = Act.markClaimed mo lp
  | [], s, total, a => by
    intro ha
    simp [claimLoopT] at ha
  | c :: rest, s, total, a => by
    intro ha
    cases hs : claimStep hash2 leafHash s lp c.month c.balance c.merkleProof with
    | error e =>
      simp [claimLoopT, hs] at ha
    | ok sm =>
      simp only [claimLoopT, hs, List.mem_cons] at ha
      rcases ha with ha | ha
      · exact ⟨c.month, ha⟩
      · exact claimLoopT_acts_marks hash2 leafHash lp rest sm (total + c.balance) a ha

/-- When the claimMonths loop completes, its effect trace is one
claimed-flag write per entry, in entry order. -/
lemma claimLoopT_acts_of_ok (hash2 : Bytes32 → Bytes32 → Bytes32)
    (leafHash : Address → Nat → Bytes32) (lp : Address) :
    ∀ (cs : List Claim) (s : MState) (total : Nat) (s1 : MState) (tot : Nat),
      (claimLoopT hash2 leafHash lp s cs total).2 = Except.ok (s1, tot) →
      (claimLoopT hash2 leafHash lp s cs total).1 =
        cs.map (fun c => Act.markClaimed c.month lp)
  | [], s, total, s1, tot => by
    intro h
    simp [claimLoopT]
  | c :: rest, s, total, s1, tot => by
    intro h
    cases hs : claimStep hash2 leafHash s lp c.month c.balance c.merkleProof with
    | error e => rw [claimLoopT, hs] at h; simp at h
    | ok sm =>
      simp only [claimLoopT, hs, List.map_cons, List.cons.injEq]
      rw [claimLoopT, hs] at h
      simp only at h
      exact ⟨trivial, claimLoopT_acts_of_ok hash2 leafHash lp rest sm (total + c.balance) s1 tot h⟩

/-- C4: in the effect traces of claimMonth and claimMonths, any initiation
of the external token transfer is strictly preceded by the claimed-flag
write of every (period, claimant) pair being paid, so no transfer ever runs
while a paid pair is still unclaimed. -/
theorem mark_claimed_before_transfer (hash2 : Bytes32 → Bytes32 → Bytes32)
    (leafHash : Address → Nat → Bytes32) (s : MState) (lp : Address)
    (m bal : Nat) (proof : List Bytes32) :
    (∀ j toA amt, (claimMonthT hash2 leafHash s lp m bal proof).1.getD j default =
        Act.tokenTransfer toA amt →
      ∃ i, i < j ∧ (claimMonthT hash2 leafHash s lp m bal proof).1.getD i default =
        Act.markClaimed m lp) ∧
    (∀ cs j toA amt, (claimMonthsT hash2 leafHash s lp cs).1.getD j default =
        Act.tokenTransfer toA amt →
      ∀ c ∈ cs, ∃ i, i < j ∧ (claimMonthsT hash2 leafHash s lp cs).1.getD i default =
        Act.markClaimed c.month lp) := by
  constructor
  · intro j toA amt hj
    cases hs : claimStep hash2 leafHash s lp m bal proof with
    | error e =>
      rw [claimMonthT_acts_error hash2 leafHash s lp m bal proof e hs] at hj
      simp [List.getD] at hj
    | ok s1 =>
      rw [claimMonthT_acts_ok hash2 leafHash s lp m bal proof s1 hs] at hj
      by_cases hb : 0 < bal
      · rw [disburseT_acts_pos s1 lp bal hb] at hj
        match j with
        | 0 => simp at hj
        | 1 => simp at hj
        | 2 =>
          refine ⟨0, by omega, ?_⟩
          rw [claimMonthT_acts_ok hash2 leafHash s lp m bal proof s1 hs]
          rfl
        | n + 3 => simp [List.getD] at hj
      · have hz : bal = 0 := by omega
        subst hz
        rw [disburseT_acts_zero s1 lp] at hj
        match j with
        | 0 => simp at hj
        | n + 1 => simp [List.getD] at hj
  · intro cs j toA amt hj c hc
    cases hl : (claimLoopT hash2 leafHash lp s cs 0).2 with
    | error e =>
      rw [claimMonthsT_acts_error hash2 leafHash s lp cs e hl] at hj
      by_cases hlt : j < (claimLoopT hash2 leafHash lp s cs 0).1.length
      · rw [List.getD_eq_getElem _ _ hlt] at hj
        obtain ⟨mo, hmo⟩ := claimLoopT_acts_marks hash2 leafHash lp cs s 0 _
          (hj ▸ List.getElem_mem hlt)
        simp at hmo
      · rw [List.getD_eq_default _ _ (by omega)] at hj
        simp at hj
    | ok p =>
      obtain ⟨s1, total⟩ := p
      have hacts := claimMonthsT_acts_ok hash2 leafHash s lp cs s1 total hl
      have hmap := claimLoopT_acts_of_ok hash2 leafHash lp cs s 0 s1 total hl
      rw [hacts, hmap] at hj
      obtain ⟨k, hk, hck⟩ := List.mem_iff_getElem.mp hc
      have hklen : k < (cs.map (fun c => Act.markClaimed c.month lp)).length := by
        simpa using hk
      have hjlen : cs.length ≤ j := by
        by_contra hjl
        push_neg at hjl
        have hjm : j < (cs.map (fun c => Act.markClaimed c.month lp)).length := by
          simpa using hjl
        rw [List.getD_eq_getElem _ _ (by simp [List.length_append]; omega),
          List.getElem_append_left hjm] at hj
        simp at hj
      refine ⟨k, by omega, ?_⟩
      rw [hacts, hmap,
        List.getD_eq_getElem _ _ (by simp [List.length_append]; omega),
        List.getElem_append_left hklen]
      simp [hck]

theorem mark_claimed_before_transfer_witness :
    (claimMonthT tHash tLeaf cState 1 1 100 []).1.getD 2 default =
        Act.tokenTransfer 1 100 ∧
      (∃ i, i < 2 ∧ (claimMonthT tHash tLeaf cState 1 1 100 []).1.getD i default =
        Act.markClaimed 1 1) :=
  ⟨by decide,
    (mark_claimed_before_transfer tHash tLeaf cState 1 1 100 []).1 2 1 100 (by decide)⟩

/-- Writing a claimed flag commutes with a token payout: they touch
disjoint fields. -/
lemma markClaimed_payOut (s : MState) (a : Address) (b : Nat) (m : Nat) (lp : Address) :
    markClaimed (payOut s a b) m lp = payOut (markClaimed s m lp) a b := rfl

/-- The requires-and-mark phase ignores token balances, so it commutes with
a payout. -/
lemma claimStep_payOut (hash2 : Bytes32 → Bytes32 → Bytes32)
    (leafHash : Address → Nat → Bytes32) (s : MState) (a : Address) (b : Nat)
    (lp : Address) (m bal : Nat) (proof : List Bytes32) :
    claimStep hash2 leafHash (payOut s a b) lp m bal proof =
      (claimStep hash2 leafHash s lp m bal proof).map (fun t => payOut t a b) := by
  unfold claimStep
  have hcl : (payOut s a b).claimed = s.claimed := rfl
  have hvv : verifyClaim hash2 leafHash (payOut s a b) lp m bal proof =
      verifyClaim hash2 leafHash s lp m bal proof := rfl
  rw [hcl, hvv]
  by_cases h1 : s.claimed m lp
  · simp [h1, Except.map]
  · by_cases h2 : verifyClaim hash2 leafHash s lp m bal proof
    · simp [h1, h2, Except.map, markClaimed_payOut]
    · simp [h1, h2, Except.map]

/-- The whole claimMonths loop commutes with a payout. -/
lemma claimLoopT_payOut (hash2 : Bytes32 → Bytes32 → Bytes32)
    (leafHash : Address → Nat → Bytes32) (lp a : Address) (b : Nat) :
    ∀ (cs : List Claim) (s : MState) (total : Nat),
      (claimLoopT hash2 leafHash lp (payOut s a b) cs total).2 =
        (claimLoopT hash2 leafHash lp s cs total).2.map
          (fun p => (payOut p.1 a b, p.2))
  | [], s, total => by
    simp [claimLoopT, Except.map]
  | c :: rest, s, total => by
    rw [claimLoopT, claimLoopT,
      claimStep_payOut hash2 leafHash s a b lp c.month c.balance c.merkleProof]
    cases hs : claimStep hash2 leafHash s lp c.month c.balance c.merkleProof with
    | error e => simp [Except.map]
    | ok sm =>
      simp only [Except.map]
      exact claimLoopT_payOut hash2 leafHash lp a b rest sm (total + c.balance)

/-- The loop only ever sets claimed flags, never clears them. -/
lemma claimLoopT_claimed_mono (hash2 : Bytes32 → Bytes32 → Bytes32)
    (leafHash : Address → Nat → Bytes32) (lp : Address) :
    ∀ (cs : List Claim) (s : MState) (total : Nat) (s1 : MState) (tot : Nat)
      (m' : Nat) (a : Address),
      (claimLoopT hash2 leafHash lp s cs total).2 = Except.ok (s1, tot) →
      s.claimed m' a = true → s1.claimed m' a = true
  | [], s, total, s1, tot, m', a => by
    intro h hc
    simp only [claimLoopT] at h
    have := Except.ok.injEq _ _ ▸ h
    obtain ⟨h1, -⟩ := (Prod.mk.injEq _ _ _ _).mp this
    subst h1
    exact hc
  | c :: rest, s, total, s1, tot, m', a => by
    intro h hc
    cases hs : claimStep hash2 leafHash s lp c.month c.balance c.merkleProof with
    | error e => rw [claimLoopT, hs] at h; simp at h
    | ok sm =>
      rw [claimLoopT, hs] at h
      simp only at h
      obtain ⟨h1, -, -⟩ := claimStep_ok_inv hash2 leafHash s lp c.month c.balance c.merkleProof sm hs
      subst h1
      exact claimLoopT_claimed_mono hash2 leafHash lp rest _ (total + c.balance) s1 tot m' a h
        (markClaimed_claimed_mono s c.month lp m' a hc)

/-- After a completed loop, every entry of the batch is marked claimed. -/
lemma claimLoopT_ok_claimed (hash2 : Bytes32 → Bytes32 → Bytes32)
    (leafHash : Address → Nat → Bytes32) (lp : Address) :
    ∀ (cs : List Claim) (s : MState) (total : Nat) (s1 : MState) (tot : Nat),
      (claimLoopT hash2 leafHash lp s cs total).2 = Except.ok (s1, tot) →
      ∀ c ∈ cs, s1.claimed c.month lp = true
  | [], s, total, s1, tot => by
    intro h c hc
    simp at hc
  | c :: rest, s, total, s1, tot => by
    intro h c' hc'
    cases hs : claimStep hash2 leafHash s lp c.month c.balance c.merkleProof with
    | error e => rw [claimLoopT, hs] at h; simp at h
    | ok sm =>
      rw [claimLoopT, hs] at h
      simp only at h
      obtain ⟨h1, -, -⟩ := claimStep_ok_inv hash2 leafHash s lp c.month c.balance c.merkleProof sm hs
      subst h1
      rcases List.mem_cons.mp hc' with he | hm
      · have hone : s1.claimed c.month lp = true :=
          claimLoopT_claimed_mono hash2 leafHash lp rest _ (total + c.balance) s1 tot
            c.month lp h (markClaimed_claimed_self s c.month lp)
        rw [he]
        exact hone
      · exact claimLoopT_ok_claimed hash2 leafHash lp rest _ (total + c.balance) s1 tot h c' hm

/-- Unfolding claimMonthSeq over a failing head claim. -/
lemma claimMonthSeq_cons_err (hash2 : Bytes32 → Bytes32 → Bytes32)
    (leafHash : Address → Nat → Bytes32) (lp : Address) (s : MState)
    (c : Claim) (rest : List Claim) (e : CErr)
    (h : claimMonth hash2 leafHash s lp c.month c.balance c.merkleProof = Except.error e) :
    claimMonthSeq hash2 leafHash lp s (c :: rest) = Except.error e := by
  rw [claimMonthSeq, h]

/-- Unfolding claimMonthSeq over a succeeding head claim. -/
lemma claimMonthSeq_cons_ok (hash2 : Bytes32 → Bytes32 → Bytes32)
    (leafHash : Address → Nat → Bytes32) (lp : Address) (s : MState)
    (c : Claim) (rest : List Claim) (s1 : MState) (evs1 : List Ev)
    (h : claimMonth hash2 leafHash s lp c.month c.balance c.merkleProof =
      Except.ok (s1, evs1)) :
    claimMonthSeq hash2 leafHash lp s (c :: rest) =
      match claimMonthSeq hash2 leafHash lp s1 rest with
      | Except.error e => Except.error e
      | Except.ok (s2, evs2) => Except.ok (s2, evs1 ++ evs2) := by
  rw [claimMonthSeq, h]

/-- Bridge between the batch loop and the sequence of single claims: under
a sufficiently funded escrow, the sequence fails exactly when the loop
fails (with the same require), and when the loop completes with final
check-state s1, the sequence ends in s1 plus the total payout. -/
lemma claimMonthSeq_of_loop (hash2 : Bytes32 → Bytes32 → Bytes32)
    (leafHash : Address → Nat → Bytes32) (lp : Address) :
    ∀ (cs : List Claim) (s : MState) (total0 : Nat),
      claimsTotal cs ≤ s.contractBal →
      ((∀ e, (claimLoopT hash2 leafHash lp s cs total0).2 = Except.error e →
          claimMonthSeq hash2 leafHash lp s cs = Except.error e) ∧
       (∀ s1 tot, (claimLoopT hash2 leafHash lp s cs total0).2 = Except.ok (s1, tot) →
          ∃ evs, claimMonthSeq hash2 leafHash lp s cs =
            Except.ok (payOut s1 lp (claimsTotal cs), evs)))
  | [], s, total0 => by
    intro hbal
    constructor
    · intro e he
      simp [claimLoopT] at he
    · intro s1 tot h
      simp only [claimLoopT] at h
      have := Except.ok.injEq _ _ ▸ h
      obtain ⟨h1, -⟩ := (Prod.mk.injEq _ _ _ _).mp this
      subst h1
      exact ⟨[], by simp [claimMonthSeq, claimsTotal, payOut_zero]⟩
  | c :: rest, s, total0 => by
    intro hbal
    have hcb : c.balance ≤ s.contractBal := by
      simp only [claimsTotal] at hbal
      omega
    cases hs : claimStep hash2 leafHash s lp c.month c.balance c.merkleProof with
    | error e0 =>
      have hcm0 : claimMonth hash2 leafHash s lp c.month c.balance c.merkleProof =
          Except.error e0 := by
        simp [claimMonth, claimMonthT, hs]
      have hseq : claimMonthSeq hash2 leafHash lp s (c :: rest) = Except.error e0 :=
        claimMonthSeq_cons_err hash2 leafHash lp s c rest e0 hcm0
      constructor
      · intro e he
        rw [claimLoopT, hs] at he
        simp only at he
        injection he with he
        subst he
        exact hseq
      · intro s1 tot h
        rw [claimLoopT, hs] at h
        simp at h
    | ok sm =>
      obtain ⟨hsm, -, -⟩ := claimStep_ok_inv hash2 leafHash s lp c.month c.balance c.merkleProof sm hs
      have hsmcb : c.balance ≤ sm.contractBal := by rw [hsm]; simpa using hcb
      have hcm : claimMonth hash2 leafHash s lp c.month c.balance c.merkleProof =
          Except.ok (payOut sm lp c.balance,
            if 0 < c.balance then [Ev.claimedEv lp c.balance] else []) := by
        unfold claimMonth claimMonthT
        rw [hs]
        exact disburseT_ok sm lp c.balance hsmcb
      have hrest : claimsTotal rest ≤ (payOut sm lp c.balance).contractBal := by
        rw [payOut_contractBal, hsm, markClaimed_contractBal]
        simp only [claimsTotal] at hbal
        omega
      have hmap := claimLoopT_payOut hash2 leafHash lp lp c.balance rest sm (total0 + c.balance)
      obtain ⟨ih_err, ih_ok⟩ :=
        claimMonthSeq_of_loop hash2 leafHash lp rest (payOut sm lp c.balance)
          (total0 + c.balance) hrest
      constructor
      · intro e he
        rw [claimLoopT, hs] at he
        simp only at he
        have herr : (claimLoopT hash2 leafHash lp (payOut sm lp c.balance) rest
            (total0 + c.balance)).2 = Except.error e := by
          rw [hmap, he]
          simp [Except.map]
        rw [claimMonthSeq_cons_ok hash2 leafHash lp s c rest _ _ hcm, ih_err e herr]
      · intro s1 tot h
        rw [claimLoopT, hs] at h
        simp only at h
        have hok : (claimLoopT hash2 leafHash lp (payOut sm lp c.balance) rest
            (total0 + c.balance)).2 = Except.ok (payOut s1 lp c.balance, tot) := by
          rw [hmap, h]
          simp [Except.map]
        obtain ⟨evs, hevs⟩ := ih_ok (payOut s1 lp c.balance) tot hok
        refine ⟨(if 0 < c.balance then [Ev.claimedEv lp c.balance] else []) ++ evs, ?_⟩
        rw [claimMonthSeq_cons_ok hash2 leafHash lp s c rest _ _ hcm, hevs, payOut_payOut]
        simp [claimsTotal]

/-- C3: with an escrow covering the batch total, claimMonths succeeds iff
the corresponding sequence of claimMonth calls succeeds; a successful batch
reaches exactly the state of the successful sequence (every entry's pair
marked claimed, one aggregate payout equal to the summed amounts), and a
failed batch reverts with the same require the sequence would hit, leaving
no state change (revert semantics). -/
theorem claimMonths_refines_singles (hash2 : Bytes32 → Bytes32 → Bytes32)
    (leafHash : Address → Nat → Bytes32) (s : MState) (lp : Address)
    (cs : List Claim) (hbal : claimsTotal cs ≤ s.contractBal) :
    ((claimMonths hash2 leafHash s lp cs).isOk =
      (claimMonthSeq hash2 leafHash lp s cs).isOk) ∧
    (∀ s' evs, claimMonths hash2 leafHash s lp cs = Except.ok (s', evs) →
      (∃ evs2, claimMonthSeq hash2 leafHash lp s cs = Except.ok (s', evs2)) ∧
      (∀ c ∈ cs, s'.claimed c.month lp = true) ∧
      s'.contractBal = s.contractBal - claimsTotal cs ∧
      s'.balances lp = s.balances lp + claimsTotal cs) ∧
    (∀ e, claimMonths hash2 leafHash s lp cs = Except.error e →
      claimMonthSeq hash2 leafHash lp s cs = Except.error e) := by
  obtain ⟨l_err, l_ok⟩ := claimMonthSeq_of_loop hash2 leafHash lp cs s 0 hbal
  cases hl : (claimLoopT hash2 leafHash lp s cs 0).2 with
  | error e =>
    have hcm := claimMonths_eq_of_loop_error hash2 leafHash s lp cs e hl
    have hseq := l_err e hl
    refine ⟨by rw [hcm, hseq], ?_, ?_⟩
    · intro s' evs h
      rw [hcm] at h
      simp at h
    · intro e' h
      rw [hcm] at h
      injection h with h
      subst h
      exact hseq
  | ok p =>
    obtain ⟨s1, tot⟩ := p
    obtain ⟨-, hcb1, hbals1, -, htot⟩ := claimLoopT_ok_frame hash2 leafHash lp cs s 0 s1 tot hl
    have htot' : tot = claimsTotal cs := by omega
    subst htot'
    have hdok : claimMonths hash2 leafHash s lp cs =
        Except.ok (payOut s1 lp (claimsTotal cs),
          if 0 < claimsTotal cs then [Ev.claimedEv lp (claimsTotal cs)] else []) := by
      rw [claimMonths_eq_of_loop hash2 leafHash s lp cs s1 (claimsTotal cs) hl]
      exact disburseT_ok s1 lp (claimsTotal cs) (by rw [hcb1]; exact hbal)
    obtain ⟨evs2, hseq⟩ := l_ok s1 (claimsTotal cs) hl
    refine ⟨by simp [hdok, hseq, Except.isOk, Except.toBool], ?_, ?_⟩
    · intro s' evs h
      rw [hdok] at h
      injection h with h
      obtain ⟨h1, -⟩ := (Prod.mk.injEq _ _ _ _).mp h
      subst h1
      refine ⟨⟨evs2, hseq⟩, ?_, ?_, ?_⟩
      · intro c hc
        rw [payOut_claimed]
        exact claimLoopT_ok_claimed hash2 leafHash lp cs s 0 s1 (claimsTotal cs) hl c hc
      · rw [payOut_contractBal, hcb1]
      · rw [payOut_balances_self, hbals1]
    · intro e h
      rw [hdok] at h
      simp at h

theorem claimMonths_refines_singles_witness :
    claimsTotal [Claim.mk 1 100 [], Claim.mk 2 0 []] ≤ cState.contractBal ∧
      (((claimMonths tHash tLeaf cState 1 [Claim.mk 1 100 [], Claim.mk 2 0 []]).isOk =
        (claimMonthSeq tHash tLeaf 1 cState [Claim.mk 1 100 [], Claim.mk 2 0 []]).isOk) ∧
      (∀ s' evs, claimMonths tHash tLeaf cState 1 [Claim.mk 1 100 [], Claim.mk 2 0 []] =
          Except.ok (s', evs) →
        (∃ evs2, claimMonthSeq tHash tLeaf 1 cState [Claim.mk 1 100 [], Claim.mk 2 0 []] =
          Except.ok (s', evs2)) ∧
        (∀ c ∈ [Claim.mk 1 100 [], Claim.mk 2 0 []], s'.claimed c.month 1 = true) ∧
        s'.contractBal = cState.contractBal - claimsTotal [Claim.mk 1 100 [], Claim.mk 2 0 []] ∧
        s'.balances 1 = cState.balances 1 + claimsTotal [Claim.mk 1 100 [], Claim.mk 2 0 []]) ∧
      (∀ e, claimMonths tHash tLeaf cState 1 [Claim.mk 1 100 [], Claim.mk 2 0 []] =
          Except.error e →
        claimMonthSeq tHash tLeaf 1 cState [Claim.mk 1 100 [], Claim.mk 2 0 []] =
          Except.error e)) :=
  ⟨by decide, claimMonths_refines_singles tHash tLeaf cState 1
    [Claim.mk 1 100 [], Claim.mk 2 0 []] (by decide)⟩

/-! ## Lemmas about the subgraph pager -/

/-- Each page holds at most 1000 rows, and the loop runs at most `fuel`
pages, so the concatenation holds at most 1000 x fuel rows. -/
lemma fetchLoop_flatten_length (store : List StakeSet) (bs be : Nat) :
    ∀ (fuel : Nat) (c : Option Nat),
      ((fetchLoop store bs be fuel c).flatten).length ≤ 1000 * fuel
  | 0, c => by simp [fetchLoop]
  | fuel + 1, c => by
    rw [fetchLoop]
    have hsetlen : (fetchStakeSets store bs be c).length ≤ 1000 := by
      unfold fetchStakeSets
      rw [List.length_take]
      omega
    by_cases h : (fetchStakeSets store bs be c).length < 1000
    · rw [if_pos h]
      have : ([fetchStakeSets store bs be c].flatten).length ≤ 1000 := by
        simpa using hsetlen
      rw [Nat.mul_succ]
      omega
    · rw [if_neg h]
      rw [List.flatten_cons, List.length_append, Nat.mul_succ]
      have hrec := fetchLoop_flatten_length store bs be fuel
        (some (((fetchStakeSets store bs be c).getD 999 default).id))
      omega

/-- In a list strictly sorted on ids, filtering for ids greater than the
id of element n is exactly dropping the first n + 1 elements. -/
lemma sorted_filter_gt_eq_drop :
    ∀ (L : List StakeSet), L.Pairwise (fun a b => a.id < b.id) →
      ∀ (n : Nat), n < L.length →
        L.filter (fun x => decide ((L.getD n default).id < x.id)) = L.drop (n + 1)
  | [], _, n, hn => by simp at hn
  | a :: t, hp, 0, hn => by
    obtain ⟨hhead, htail⟩ := List.pairwise_cons.mp hp
    simp only [List.getD_cons_zero, List.drop_succ_cons, List.drop_zero]
    rw [List.filter_cons, if_neg (by simp)]
    apply List.filter_eq_self.mpr
    intro x hx
    simpa using hhead x hx
  | a :: t, hp, n + 1, hn => by
    obtain ⟨hhead, htail⟩ := List.pairwise_cons.mp hp
    have hn' : n < t.length := by simpa using hn
    have hmem : t.getD n default ∈ t := by
      rw [List.getD_eq_getElem _ _ hn']
      exact List.getElem_mem hn'
    have hlt : a.id < (t.getD n default).id := hhead _ hmem
    simp only [List.getD_cons_succ, List.drop_succ_cons]
    rw [List.filter_cons, if_neg (by simp only [decide_eq_true_eq]; omega)]
    exact sorted_filter_gt_eq_drop t htail n hn'

/-- Restricting the query to ids above a bound already above the cursor
refines the current result set by that bound. -/
lemma filteredAfter_some_eq_filter (store : List StakeSet) (bs be : Nat)
    (c : Option Nat) (k : Nat)
    (hk : ∀ x ∈ store, k < x.id → idGt c x = true) :
    filteredAfter store bs be (some k) =
      (filteredAfter store bs be c).filter (fun x => decide (k < x.id)) := by
  unfold filteredAfter
  rw [List.filter_filter]
  apply List.filter_congr
  intro x hx
  by_cases hP : k < x.id
  · have hG := hk x hx hP
    have h1 : idGt (some k) x = true := by simp [idGt, hP]
    have h2 : decide (k < x.id) = true := by simp [hP]
    rw [h1, hG, h2]
    simp
  · have h1 : idGt (some k) x = false := by simp [idGt, hP]
    have h2 : decide (k < x.id) = false := by simp [hP]
    rw [h1, h2]
    simp

/-- Advancing the cursor to the id of row 999 of the current result set
drops exactly the first 1000 matching rows. -/
lemma filteredAfter_cursor_drop (store : List StakeSet) (bs be : Nat) (c : Option Nat)
    (hsort : store.Pairwise (fun a b => a.id < b.id))
    (h1000 : 1000 ≤ (filteredAfter store bs be c).length) :
    filteredAfter store bs be
        (some (((filteredAfter store bs be c).getD 999 default).id)) =
      (filteredAfter store bs be c).drop 1000 := by
  have hFsort : (filteredAfter store bs be c).Pairwise (fun a b => a.id < b.id) :=
    hsort.sublist (List.filter_sublist store)
  have h999 : (999 : Nat) < (filteredAfter store bs be c).length := by omega
  have hl999 : (filteredAfter store bs be c).getD 999 default ∈ filteredAfter store bs be c := by
    rw [List.getD_eq_getElem _ _ h999]
    exact List.getElem_mem h999
  have hidgt : idGt c ((filteredAfter store bs be c).getD 999 default) = true := by
    have hmf := List.mem_filter.mp hl999
    have hb := hmf.2
    simp only [Bool.and_eq_true] at hb
    exact hb.2
  have hk : ∀ x ∈ store, ((filteredAfter store bs be c).getD 999 default).id < x.id →
      idGt c x = true := by
    intro x hx hlt
    cases c with
    | none => rfl
    | some v =>
      simp only [idGt, decide_eq_true_eq] at hidgt ⊢
      omega
  rw [filteredAfter_some_eq_filter store bs be c
    ((filteredAfter store bs be c).getD 999 default).id hk]
  exact sorted_filter_gt_eq_drop (filteredAfter store bs be c) hFsort 999 h999

/-- With no cursor, the where-clause keeps exactly the in-range rows. -/
lemma filteredAfter_none (store : List StakeSet) (bs be : Nat) :
    filteredAfter store bs be none = store.filter (fun s => inRangeB bs be s) := by
  unfold filteredAfter
  apply List.filter_congr
  intro x hx
  simp [idGt]

/-- As long as the remaining matching rows fit in the remaining pages, the
paging loop returns exactly the matching rows, in store order. -/
lemma fetchLoop_flatten_eq (store : List StakeSet) (bs be : Nat)
    (hsort : store.Pairwise (fun a b => a.id < b.id)) :
    ∀ (fuel : Nat) (c : Option Nat),
      (filteredAfter store bs be c).length ≤ 1000 * fuel →
      (fetchLoop store bs be fuel c).flatten = filteredAfter store bs be c
  | 0, c => fun h => by
    have hz : filteredAfter store bs be c = [] := List.length_eq_zero.mp (by omega)
    simp [fetchLoop, hz]
  | fuel + 1, c => fun h => by
    rw [fetchLoop]
    have hsets : fetchStakeSets store bs be c = (filteredAfter store bs be c).take 1000 := rfl
    by_cases hlt : (fetchStakeSets store bs be c).length < 1000
    · rw [if_pos hlt]
      have hFlen : (filteredAfter store bs be c).length < 1000 := by
        rw [hsets, List.length_take] at hlt
        omega
      rw [hsets]
      simp [List.take_of_length_le (Nat.le_of_lt hFlen)]
    · rw [if_neg hlt]
      have hge : 1000 ≤ (filteredAfter store bs be c).length := by
        rw [hsets, List.length_take] at hlt
        omega
      have hgd : (fetchStakeSets store bs be c).getD 999 default =
          (filteredAfter store bs be c).getD 999 default := by
        rw [hsets]
        have h1 : (999 : Nat) < ((filteredAfter store bs be c).take 1000).length := by
          rw [List.length_take]
          omega
        rw [List.getD_eq_getElem _ _ h1, List.getD_eq_getElem _ _ (by omega), List.getElem_take]
      have hcursor := filteredAfter_cursor_drop store bs be c hsort hge
      have hreclen : (filteredAfter store bs be
          (some (((filteredAfter store bs be c).getD 999 default).id))).length ≤
          1000 * fuel := by
        rw [hcursor, List.length_drop, Nat.mul_succ] at *
        omega
      have hrec := fetchLoop_flatten_eq store bs be hsort fuel
        (some (((filteredAfter store bs be c).getD 999 default).id)) hreclen
      rw [List.flatten_cons, hgd, hrec, hcursor, hsets]
      exact List.take_append_drop 1000 (filteredAfter store bs be c)

/-- C7 (counterexample): the fetcher can omit in-range records.  bigStore
holds 1000001 rows, strictly sorted by id, all inside the queried block
range [0, 10), yet fetchAllStakeSets cannot return them all: its paging
loop is capped at 1000 pages of 1000 rows. -/
theorem fetchAllStakeSets_completeness_cex :
    bigStore.Pairwise (fun a b => a.id < b.id) ∧
      (∀ r ∈ bigStore, inRangeB 0 10 r = true) ∧
      ¬ (∀ r ∈ bigStore, r ∈ fetchAllStakeSets bigStore 0 10) := by
  refine ⟨?_, ?_, ?_⟩
  · refine List.Pairwise.map bigRec ?_ (List.pairwise_lt_range 1000001)
    intro a b h
    simp only [bigRec]
    omega
  · intro r hr
    obtain ⟨i, -, hi⟩ := List.mem_map.mp hr
    rw [← hi]
    rfl
  · intro hall
    have hinj : Function.Injective bigRec := by
      intro i j hij
      have h2 : (bigRec i).id = (bigRec j).id := by rw [hij]
      simpa [bigRec] using h2
    have hnd : bigStore.Nodup := by
      unfold bigStore
      exact (List.nodup_range 1000001).map hinj
    have hsub : bigStore ⊆ fetchAllStakeSets bigStore 0 10 := fun r hr => hall r hr
    have hlen1 : bigStore.length = 1000001 := by
      simp [bigStore]
    have hlen2 : (fetchAllStakeSets bigStore 0 10).length ≤ 1000000 := by
      have := fetchLoop_flatten_length bigStore 0 10 1000 none
      simpa [fetchAllStakeSets] using this
    have := (hnd.subperm hsub).length_le
    omega

/-- C7 (amended): for every requested block range, the fetcher returns no
record outside the range, and — provided the range matches at most 1000000
records (the paging loop is capped at 1000 pages of 1000) — it returns
every record in the range: the result is exactly the in-range sublist of
the id-sorted store. -/
theorem fetchAllStakeSets_complete (store : List StakeSet) (bs be : Nat)
    (hsort : store.Pairwise (fun a b => a.id < b.id))
    (hcount : (store.filter (fun s => inRangeB bs be s)).length ≤ 1000000) :
    fetchAllStakeSets store bs be = store.filter (fun s => inRangeB bs be s) ∧
      (∀ r ∈ fetchAllStakeSets store bs be, r ∈ store ∧ inRangeB bs be r = true) ∧
      (∀ r ∈ store, inRangeB bs be r = true → r ∈ fetchAllStakeSets store bs be) := by
  have heq : fetchAllStakeSets store bs be = store.filter (fun s => inRangeB bs be s) := by
    unfold fetchAllStakeSets
    rw [fetchLoop_flatten_eq store bs be hsort 1000 none
      (by rw [filteredAfter_none]; simpa using hcount)]
    exact filteredAfter_none store bs be
  refine ⟨heq, ?_, ?_⟩
  · intro r hr
    rw [heq] at hr
    exact List.mem_filter.mp hr
  · intro r hr hir
    rw [heq]
    exact List.mem_filter.mpr ⟨hr, hir⟩

theorem fetchAllStakeSets_complete_witness :
    smallStore.Pairwise (fun a b => a.id < b.id) ∧
      (smallStore.filter (fun s => inRangeB 0 10 s)).length ≤ 1000000 ∧
      (fetchAllStakeSets smallStore 0 10 = smallStore.filter (fun s => inRangeB 0 10 s) ∧
        (∀ r ∈ fetchAllStakeSets smallStore 0 10, r ∈ smallStore ∧ inRangeB 0 10 r = true) ∧
        (∀ r ∈ smallStore, inRangeB 0 10 r = true → r ∈ fetchAllStakeSets smallStore 0 10)) :=
  ⟨by decide, by decide, fetchAllStakeSets_complete smallStore 0 10 (by decide) (by decide)⟩

end PnkDrop
